import Mathlib

/-!
Shallow embedding of the ursa graph manager (src/ursa/local_manager.py) and of
the per-graph store it drives. The store itself (ursa/graph.py) is not among
the sources, so its operations are modelled from the spec, section 4.2; the
manager facade, the registry, the transaction sequencer and the back-edge
propagators are embedded from local_manager.py. Detached back-edge tasks are
applied in issue order, so every manager operation below returns the state
observed after the triggered propagation has completed.
-/

namespace Ursa

abbrev Key := String
abbrev GraphID := String
abbrev Row := String

/-- Errors raised by the manager: ValueError for an empty or absent graph name,
for a duplicate name and for a non-dict foreign_keys argument, KeyError for
indexing an unknown graph id in graph_dict. -/
inductive UrsaError where
  | invalidName
  | duplicateName
  | invalidArgument
  | keyError
deriving DecidableEq, Repr

/-- Modelled from the spec: the per-graph store of section 4.2 (the file
ursa/graph.py is not part of the sources; only its caller local_manager.py is).
State: rows (Key to Row), local edges (Key to LocalEdgeSet), foreign edges
(Key to ForeignEdgeMap). The edge maps are total functions with empty default,
matching the purely additive union contract; transaction_id records the stamp
of the last operation received. -/
structure Graph where
  rows : Key → Option Row
  local_edges : Key → Finset Key
  foreign_edges : Key → GraphID → Finset Key
  transaction_id : Nat

/-- Modelled from the spec: a fresh store stamped with the given transaction
id, as built by create_graph. -/
def Graph.empty (tid : Nat) : Graph :=
  { rows := fun _ => none
    local_edges := fun _ => ∅
    foreign_edges := fun _ _ => ∅
    transaction_id := tid }

/-- Modelled from the spec: the store insert creates or overwrites the row,
sets the local edge set of key to local_keys, and merges foreign_keys bucket
by bucket into the foreign map of key. -/
def Graph.insert (g : Graph) (key : Key) (node : Row) (local_keys : Finset Key)
    (foreign_keys : List (GraphID × Finset Key)) (tid : Nat) : Graph :=
  { rows := fun k => if k = key then some node else g.rows k
    local_edges := fun k => if k = key then local_keys else g.local_edges k
    foreign_edges := fun k gid =>
      if k = key then g.foreign_edges k gid ∪ ((foreign_keys.lookup gid).getD ∅)
      else g.foreign_edges k gid
    transaction_id := tid }

/-- Modelled from the spec: the store delete removes the row for key, a no-op
when the key is absent; edges are not cleaned up. -/
def Graph.delete (g : Graph) (key : Key) (tid : Nat) : Graph :=
  { g with rows := fun k => if k = key then none else g.rows k
           transaction_id := tid }

/-- Modelled from the spec: the store add_local_keys unions the given keys into
the local edge set of key. -/
def Graph.add_local_keys (g : Graph) (tid : Nat) (key : Key) (keys : List Key) : Graph :=
  { g with local_edges := fun k =>
      if k = key then g.local_edges k ∪ keys.toFinset else g.local_edges k
           transaction_id := tid }

/-- Modelled from the spec: the store add_foreign_keys unions the given keys
into the foreign map bucket of key for other_graph_id. -/
def Graph.add_foreign_keys (g : Graph) (tid : Nat) (key : Key)
    (other_graph_id : GraphID) (keys : List Key) : Graph :=
  { g with foreign_edges := fun k gid =>
      if k = key ∧ gid = other_graph_id then g.foreign_edges k gid ∪ keys.toFinset
      else g.foreign_edges k gid
           transaction_id := tid }

/-- Modelled from the spec: boolean presence check for a row. -/
def Graph.row_exists (g : Graph) (key : Key) : Bool :=
  (g.rows key).isSome

/-- Iteration order over a set of keys, used where Python iterates a set; the
order is irrelevant to every observable below. -/
def finsetList (s : Finset Key) : List Key :=
  s.sort (· ≤ ·)

/-- One store mutation message as issued by a detached back-edge task; the
Python tasks call add_local_keys and add_foreign_keys on a store handle. -/
inductive StoreOp where
  | add_local (transaction_id : Nat) (key : Key) (keys : List Key)
  | add_foreign (transaction_id : Nat) (key : Key) (other_graph_id : GraphID) (keys : List Key)
deriving DecidableEq, Repr

/-- The transaction id stamped on a store mutation message. -/
def StoreOp.transaction_id : StoreOp → Nat
  | .add_local t _ _ => t
  | .add_foreign t _ _ _ => t

/-- Embeds _add_local_key_back_edges as the trace of store calls it issues
against the origin store it is handed: for each back_edge_key in local_keys it
calls add_local_keys(transaction_id, back_edge_key, key). -/
def _add_local_key_back_edges (transaction_id : Nat) (key : Key)
    (local_keys : List Key) : List StoreOp :=
  local_keys.map fun back_edge_key => .add_local transaction_id back_edge_key [key]

/-- Embeds _add_foreign_key_back_edges as the trace of store calls it issues
against the target store it is handed: for each back_edge_key in f_keys it
calls add_foreign_keys(transaction_id, back_edge_key, graph_id, key). -/
def _add_foreign_key_back_edges (transaction_id : Nat) (key : Key)
    (graph_id : GraphID) (f_keys : List Key) : List StoreOp :=
  f_keys.map fun back_edge_key => .add_foreign transaction_id back_edge_key graph_id [key]

/-- Runs one store mutation message against a store. -/
def Graph.applyOp (g : Graph) : StoreOp → Graph
  | .add_local tid key keys => g.add_local_keys tid key keys
  | .add_foreign tid key other keys => g.add_foreign_keys tid key other keys

/-- Runs a trace of store mutation messages in order. -/
def Graph.applyOps (g : Graph) (ops : List StoreOp) : Graph :=
  ops.foldl Graph.applyOp g

/-- The manager state: graph_dict maps graph ids to stores (a Python dict,
modelled as a partial function) and the private transaction counter. -/
structure Graph_manager where
  graph_dict : GraphID → Option Graph
  transaction_id : Nat

/-- The state built by the Graph_manager constructor: empty registry, counter
at zero. -/
def Graph_manager.new : Graph_manager :=
  { graph_dict := fun _ => none, transaction_id := 0 }

/-- Python dict indexing followed by a store update: fails with KeyError when
graph_id is absent, mirroring self.graph_dict[graph_id]. -/
def Graph_manager.updateStore (m : Graph_manager) (graph_id : GraphID)
    (f : Graph → Graph) : Graph_manager × Option UrsaError :=
  match m.graph_dict graph_id with
  | none => (m, some .keyError)
  | some g =>
      ({ m with graph_dict := fun x =>
          if x = graph_id then some (f g) else m.graph_dict x }, none)

/-- Embeds Graph_manager.create_graph: bump the counter when new_transaction,
then reject a falsy or duplicate name, else register a fresh store stamped with
the current transaction id. The name is Option GraphID because Python accepts
None; both None and the empty string are falsy. -/
def Graph_manager.create_graph (m : Graph_manager) (graph_id : Option GraphID)
    (new_transaction : Bool) : Graph_manager × Option UrsaError :=
  let m1 := if new_transaction then { m with transaction_id := m.transaction_id + 1 } else m
  match graph_id with
  | none => (m1, some .invalidName)
  | some gid =>
      if gid = "" then (m1, some .invalidName)
      else if (m1.graph_dict gid).isSome then (m1, some .duplicateName)
      else ({ m1 with graph_dict := fun x =>
                if x = gid then some (Graph.empty m1.transaction_id) else m1.graph_dict x },
            none)

/-- Embeds _create_if_not_exists: lazily create a referenced graph through the
no-new-transaction path. -/
def Graph_manager.create_if_not_exists (m : Graph_manager) (graph_id : GraphID) :
    Graph_manager × Option UrsaError :=
  if (m.graph_dict graph_id).isNone then m.create_graph (some graph_id) false
  else (m, none)

/-- The dynamic foreign_keys argument of insert: either a dict from graph id to
the set of keys named under it, or some non-dict value, which insert rejects. -/
inductive ForeignArg where
  | dict (fks : List (GraphID × Finset Key))
  | nondict
deriving DecidableEq

/-- The foreign-key loop closing insert: for each graph named in the dict,
create it if missing, then run the detached foreign back-edge task against its
store. -/
def insertForeignLoop (graph_id : GraphID) (key : Key) :
    Graph_manager → List (GraphID × Finset Key) → Graph_manager × Option UrsaError
  | m, [] => (m, none)
  | m, (other_graph_id, ks) :: rest =>
      match m.create_if_not_exists other_graph_id with
      | (m1, some e) => (m1, some e)
      | (m1, none) =>
          match m1.updateStore other_graph_id (fun g =>
              g.applyOps (_add_foreign_key_back_edges m1.transaction_id key graph_id (finsetList ks))) with
          | (m2, some e) => (m2, some e)
          | (m2, none) => insertForeignLoop graph_id key m2 rest

/-- Embeds Graph_manager.insert: bump the counter, reject a non-dict
foreign_keys, lazily create graph_id, forward the row write, run the local
back-edge task, then create and back-patch every foreign graph. -/
def Graph_manager.insert (m : Graph_manager) (graph_id : GraphID) (key : Key)
    (node : Row) (local_keys : Finset Key) (foreign_keys : ForeignArg) :
    Graph_manager × Option UrsaError :=
  let m1 := { m with transaction_id := m.transaction_id + 1 }
  match foreign_keys with
  | .nondict => (m1, some .invalidArgument)
  | .dict fks =>
      match m1.create_if_not_exists graph_id with
      | (m2, some e) => (m2, some e)
      | (m2, none) =>
          match m2.updateStore graph_id
              (fun g => g.insert key node local_keys fks m2.transaction_id) with
          | (m3, some e) => (m3, some e)
          | (m3, none) =>
              match m3.updateStore graph_id (fun g =>
                  g.applyOps (_add_local_key_back_edges m3.transaction_id key (finsetList local_keys))) with
              | (m4, some e) => (m4, some e)
              | (m4, none) => insertForeignLoop graph_id key m4 fks

/-- Embeds Graph_manager.delete_row: bump the counter and forward the delete;
graph_dict[graph_id] raises KeyError when the graph is unknown. -/
def Graph_manager.delete_row (m : Graph_manager) (graph_id : GraphID) (key : Key) :
    Graph_manager × Option UrsaError :=
  let m1 := { m with transaction_id := m.transaction_id + 1 }
  m1.updateStore graph_id (fun g => g.delete key m1.transaction_id)

/-- Embeds Graph_manager.add_local_keys: bump the counter, forward the edge
add, then run the detached local back-edge task on the same store;
graph_dict[graph_id] raises KeyError when the graph is unknown. -/
def Graph_manager.add_local_keys (m : Graph_manager) (graph_id : GraphID)
    (key : Key) (local_keys : List Key) : Graph_manager × Option UrsaError :=
  let m1 := { m with transaction_id := m.transaction_id + 1 }
  match m1.updateStore graph_id
      (fun g => g.add_local_keys m1.transaction_id key local_keys) with
  | (m2, some e) => (m2, some e)
  | (m2, none) =>
      m2.updateStore graph_id (fun g =>
        g.applyOps (_add_local_key_back_edges m2.transaction_id key local_keys))

/-- Embeds Graph_manager.add_foreign_keys: bump the counter, forward the edge
add to graph_id's store (KeyError when unknown), lazily create other_graph_id,
then run the detached foreign back-edge task against the other store. -/
def Graph_manager.add_foreign_keys (m : Graph_manager) (graph_id : GraphID)
    (key : Key) (other_graph_id : GraphID) (foreign_keys : List Key) :
    Graph_manager × Option UrsaError :=
  let m1 := { m with transaction_id := m.transaction_id + 1 }
  match m1.updateStore graph_id
      (fun g => g.add_foreign_keys m1.transaction_id key other_graph_id foreign_keys) with
  | (m2, some e) => (m2, some e)
  | (m2, none) =>
      match m2.create_if_not_exists other_graph_id with
      | (m3, some e) => (m3, some e)
      | (m3, none) =>
          m3.updateStore other_graph_id (fun g =>
            g.applyOps (_add_foreign_key_back_edges m3.transaction_id key graph_id foreign_keys))

/-- Embeds Graph_manager.node_exists: graph_id in graph_dict and a row_exists
check on the store; a pure read, it touches no state. -/
def Graph_manager.node_exists (m : Graph_manager) (graph_id : GraphID) (key : Key) : Bool :=
  match m.graph_dict graph_id with
  | none => false
  | some g => g.row_exists key

/-- LocalEdgeSet(G, key) of the spec data model, as observed through the
manager: empty when the graph is absent. -/
def Graph_manager.LocalEdgeSet (m : Graph_manager) (graph_id : GraphID) (key : Key) :
    Finset Key :=
  match m.graph_dict graph_id with
  | none => ∅
  | some g => g.local_edges key

/-- ForeignEdgeMap(G, key)[other] of the spec data model, as observed through
the manager: empty when the graph is absent. -/
def Graph_manager.ForeignEdgeSet (m : Graph_manager) (graph_id : GraphID) (key : Key)
    (other_graph_id : GraphID) : Finset Key :=
  match m.graph_dict graph_id with
  | none => ∅
  | some g => g.foreign_edges key other_graph_id

/-! Characterizations of a completed back-edge propagation run: which edge sets
it grows and which parts of the store it leaves alone. -/

theorem applyOps_local_local_edges (t : Nat) (key : Key) (ks : List Key) :
    ∀ (g : Graph) (k : Key),
      (g.applyOps (_add_local_key_back_edges t key ks)).local_edges k =
        g.local_edges k ∪ (if k ∈ ks then {key} else ∅) := by
  induction ks with
  | nil =>
      intro g k
      simp [_add_local_key_back_edges, Graph.applyOps]
  | cons a rest ih =>
      intro g k
      simp only [_add_local_key_back_edges, List.map_cons, Graph.applyOps, List.foldl_cons]
      have h := ih (g.applyOp (.add_local t a [key])) k
      simp only [_add_local_key_back_edges, Graph.applyOps] at h
      rw [h]
      simp only [Graph.applyOp, Graph.add_local_keys]
      by_cases hka : k = a
      · subst hka
        by_cases hkr : k ∈ rest <;> simp [hkr, Finset.union_assoc]
      · by_cases hkr : k ∈ rest <;> simp [hka, hkr, Finset.union_assoc]

theorem applyOps_local_foreign_edges (t : Nat) (key : Key) (ks : List Key) :
    ∀ (g : Graph) (k : Key) (gid : GraphID),
      (g.applyOps (_add_local_key_back_edges t key ks)).foreign_edges k gid =
        g.foreign_edges k gid := by
  induction ks with
  | nil => intro g k gid; rfl
  | cons a rest ih =>
      intro g k gid
      simp only [_add_local_key_back_edges, List.map_cons, Graph.applyOps, List.foldl_cons]
      have h := ih (g.applyOp (.add_local t a [key])) k gid
      simp only [_add_local_key_back_edges, Graph.applyOps] at h
      rw [h]
      rfl

theorem applyOps_local_rows (t : Nat) (key : Key) (ks : List Key) :
    ∀ (g : Graph) (k : Key),
      (g.applyOps (_add_local_key_back_edges t key ks)).rows k = g.rows k := by
  induction ks with
  | nil => intro g k; rfl
  | cons a rest ih =>
      intro g k
      simp only [_add_local_key_back_edges, List.map_cons, Graph.applyOps, List.foldl_cons]
      have h := ih (g.applyOp (.add_local t a [key])) k
      simp only [_add_local_key_back_edges, Graph.applyOps] at h
      rw [h]
      rfl

theorem applyOps_foreign_foreign_edges (t : Nat) (key : Key) (graph_id : GraphID)
    (ks : List Key) :
    ∀ (g : Graph) (k : Key) (gid : GraphID),
      (g.applyOps (_add_foreign_key_back_edges t key graph_id ks)).foreign_edges k gid =
        g.foreign_edges k gid ∪ (if k ∈ ks ∧ gid = graph_id then {key} else ∅) := by
  induction ks with
  | nil =>
      intro g k gid
      simp [_add_foreign_key_back_edges, Graph.applyOps]
  | cons a rest ih =>
      intro g k gid
      simp only [_add_foreign_key_back_edges, List.map_cons, Graph.applyOps, List.foldl_cons]
      have h := ih (g.applyOp (.add_foreign t a graph_id [key])) k gid
      simp only [_add_foreign_key_back_edges, Graph.applyOps] at h
      rw [h]
      simp only [Graph.applyOp, Graph.add_foreign_keys]
      by_cases hka : k = a
      · subst hka
        by_cases hkr : k ∈ rest <;> by_cases hg : gid = graph_id <;>
          simp [hkr, hg, Finset.union_assoc]
      · by_cases hkr : k ∈ rest <;> by_cases hg : gid = graph_id <;>
          simp [hka, hkr, hg, Finset.union_assoc]

theorem applyOps_foreign_local_edges (t : Nat) (key : Key) (graph_id : GraphID)
    (ks : List Key) :
    ∀ (g : Graph) (k : Key),
      (g.applyOps (_add_foreign_key_back_edges t key graph_id ks)).local_edges k =
        g.local_edges k := by
  induction ks with
  | nil => intro g k; rfl
  | cons a rest ih =>
      intro g k
      simp only [_add_foreign_key_back_edges, List.map_cons, Graph.applyOps, List.foldl_cons]
      have h := ih (g.applyOp (.add_foreign t a graph_id [key])) k
      simp only [_add_foreign_key_back_edges, Graph.applyOps] at h
      rw [h]
      rfl

theorem applyOps_foreign_rows (t : Nat) (key : Key) (graph_id : GraphID)
    (ks : List Key) :
    ∀ (g : Graph) (k : Key),
      (g.applyOps (_add_foreign_key_back_edges t key graph_id ks)).rows k = g.rows k := by
  induction ks with
  | nil => intro g k; rfl
  | cons a rest ih =>
      intro g k
      simp only [_add_foreign_key_back_edges, List.map_cons, Graph.applyOps, List.foldl_cons]
      have h := ih (g.applyOp (.add_foreign t a graph_id [key])) k
      simp only [_add_foreign_key_back_edges, Graph.applyOps] at h
      rw [h]
      rfl

/-! Plumbing lemmas about the registry helpers and the foreign-key loop. -/

theorem create_graph_tid_true (m : Graph_manager) (go : Option GraphID) :
    (m.create_graph go true).1.transaction_id = m.transaction_id + 1 := by
  unfold Graph_manager.create_graph
  cases go with
  | none => rfl
  | some gid =>
      by_cases h1 : gid = "" <;> simp [h1]
      by_cases h2 : ((m.graph_dict gid).isSome : Prop) <;> simp [h2]

theorem create_graph_tid_false (m : Graph_manager) (go : Option GraphID) :
    (m.create_graph go false).1.transaction_id = m.transaction_id := by
  unfold Graph_manager.create_graph
  cases go with
  | none => rfl
  | some gid =>
      by_cases h1 : gid = "" <;> simp [h1]
      by_cases h2 : ((m.graph_dict gid).isSome : Prop) <;> simp [h2]

theorem create_graph_not_invalidArgument (m : Graph_manager) (go : Option GraphID)
    (nt : Bool) : (m.create_graph go nt).2 ≠ some UrsaError.invalidArgument := by
  unfold Graph_manager.create_graph
  cases go with
  | none => simp
  | some gid =>
      by_cases h1 : gid = "" <;> simp [h1]
      by_cases h2 : (((if nt then { m with transaction_id := m.transaction_id + 1 } else m :
        Graph_manager).graph_dict gid).isSome : Prop) <;> simp [h2]

theorem create_graph_not_keyError (m : Graph_manager) (go : Option GraphID)
    (nt : Bool) : (m.create_graph go nt).2 ≠ some UrsaError.keyError := by
  unfold Graph_manager.create_graph
  cases go with
  | none => simp
  | some gid =>
      by_cases h1 : gid = "" <;> simp [h1]
      by_cases h2 : (((if nt then { m with transaction_id := m.transaction_id + 1 } else m :
        Graph_manager).graph_dict gid).isSome : Prop) <;> simp [h2]

theorem cine_tid (m : Graph_manager) (gid : GraphID) :
    (m.create_if_not_exists gid).1.transaction_id = m.transaction_id := by
  unfold Graph_manager.create_if_not_exists
  by_cases h : ((m.graph_dict gid).isNone : Prop) <;> simp [h]
  exact create_graph_tid_false m (some gid)

theorem cine_snd (m : Graph_manager) (gid : GraphID) (h : gid ≠ "") :
    (m.create_if_not_exists gid).2 = none := by
  unfold Graph_manager.create_if_not_exists
  by_cases hd : ((m.graph_dict gid).isNone : Prop) <;> simp [hd]
  unfold Graph_manager.create_graph
  have : ¬ ((m.graph_dict gid).isSome : Prop) := by
    simp [Option.isNone_iff_eq_none.mp hd]
  simp [h, this]

theorem cine_not_invalidArgument (m : Graph_manager) (gid : GraphID) :
    (m.create_if_not_exists gid).2 ≠ some UrsaError.invalidArgument := by
  unfold Graph_manager.create_if_not_exists
  by_cases hd : ((m.graph_dict gid).isNone : Prop) <;> simp [hd]
  exact create_graph_not_invalidArgument m (some gid) false

theorem cine_dict (m : Graph_manager) (gid : GraphID) (x : GraphID) :
    (m.create_if_not_exists gid).1.graph_dict x =
      if x = gid ∧ (m.graph_dict gid).isNone ∧ gid ≠ "" then
        some (Graph.empty m.transaction_id)
      else m.graph_dict x := by
  unfold Graph_manager.create_if_not_exists
  by_cases hd : ((m.graph_dict gid).isNone : Prop)
  · have hnone : m.graph_dict gid = none := Option.isNone_iff_eq_none.mp hd
    simp only [hd, if_pos]
    unfold Graph_manager.create_graph
    by_cases h1 : gid = ""
    · simp [h1, hnone, hd]
    · have hns : ¬ ((m.graph_dict gid).isSome : Prop) := by simp [hnone]
      simp only [if_neg h1, hns, if_false]
      by_cases hx : x = gid <;> simp [hx, h1, hnone, hd]
  · simp [hd]

theorem updateStore_tid (m : Graph_manager) (gid : GraphID) (f : Graph → Graph) :
    (m.updateStore gid f).1.transaction_id = m.transaction_id := by
  unfold Graph_manager.updateStore
  cases m.graph_dict gid <;> rfl

theorem updateStore_snd (m : Graph_manager) (gid : GraphID) (f : Graph → Graph)
    (h : (m.graph_dict gid).isSome) : (m.updateStore gid f).2 = none := by
  unfold Graph_manager.updateStore
  cases hd : m.graph_dict gid with
  | none => rw [hd] at h; simp at h
  | some g => rfl

theorem updateStore_none (m : Graph_manager) (gid : GraphID) (f : Graph → Graph)
    (h : m.graph_dict gid = none) : m.updateStore gid f = (m, some UrsaError.keyError) := by
  unfold Graph_manager.updateStore
  rw [h]

theorem updateStore_not_invalidArgument (m : Graph_manager) (gid : GraphID)
    (f : Graph → Graph) : (m.updateStore gid f).2 ≠ some UrsaError.invalidArgument := by
  unfold Graph_manager.updateStore
  cases m.graph_dict gid <;> simp

theorem updateStore_dict (m : Graph_manager) (gid : GraphID) (f : Graph → Graph)
    (gr : Graph) (h : m.graph_dict gid = some gr) (x : GraphID) :
    (m.updateStore gid f).1.graph_dict x =
      if x = gid then some (f gr) else m.graph_dict x := by
  unfold Graph_manager.updateStore
  rw [h]

theorem updateStore_isSome (m : Graph_manager) (gid : GraphID) (f : Graph → Graph)
    (x : GraphID) (h : (m.graph_dict x).isSome) :
    ((m.updateStore gid f).1.graph_dict x).isSome := by
  unfold Graph_manager.updateStore
  cases hd : m.graph_dict gid with
  | none => exact h
  | some g =>
      by_cases hx : x = gid <;> simp [hx, h]

theorem cine_isSome (m : Graph_manager) (gid : GraphID) (x : GraphID)
    (h : (m.graph_dict x).isSome) :
    ((m.create_if_not_exists gid).1.graph_dict x).isSome := by
  rw [cine_dict]
  by_cases hx : x = gid ∧ ((m.graph_dict gid).isNone : Prop) ∧ gid ≠ ""
  · simp [hx]
  · simp only [ne_eq] at hx ⊢
    rw [if_neg hx]
    exact h

theorem cine_isSome_self (m : Graph_manager) (gid : GraphID) (h : gid ≠ "") :
    ((m.create_if_not_exists gid).1.graph_dict gid).isSome := by
  rw [cine_dict]
  cases hd : m.graph_dict gid with
  | none => simp [hd, h]
  | some g => simp [hd]

theorem insertForeignLoop_tid (graph_id : GraphID) (key : Key) :
    ∀ (l : List (GraphID × Finset Key)) (m : Graph_manager),
      (insertForeignLoop graph_id key m l).1.transaction_id = m.transaction_id := by
  intro l
  induction l with
  | nil => intro m; rfl
  | cons p rest ih =>
      intro m
      obtain ⟨other, ks⟩ := p
      simp only [insertForeignLoop]
      split
      next m1 e heq =>
        have ht1 := cine_tid m other
        rw [heq] at ht1
        exact ht1
      next m1 heq =>
        have ht1 := cine_tid m other
        rw [heq] at ht1
        split
        next m2 e heq2 =>
          have ht2 := updateStore_tid m1 other (fun g =>
            g.applyOps (_add_foreign_key_back_edges m1.transaction_id key graph_id (finsetList ks)))
          rw [heq2] at ht2
          show m2.transaction_id = m.transaction_id
          rw [ht2]; exact ht1
        next m2 heq2 =>
          have ht2 := updateStore_tid m1 other (fun g =>
            g.applyOps (_add_foreign_key_back_edges m1.transaction_id key graph_id (finsetList ks)))
          rw [heq2] at ht2
          rw [ih m2, ht2]; exact ht1

theorem insertForeignLoop_not_invalidArgument (graph_id : GraphID) (key : Key) :
    ∀ (l : List (GraphID × Finset Key)) (m : Graph_manager),
      (insertForeignLoop graph_id key m l).2 ≠ some UrsaError.invalidArgument := by
  intro l
  induction l with
  | nil => intro m; simp [insertForeignLoop]
  | cons p rest ih =>
      intro m
      obtain ⟨other, ks⟩ := p
      simp only [insertForeignLoop]
      split
      next m1 e heq =>
        have hna := cine_not_invalidArgument m other
        rw [heq] at hna
        exact hna
      next m1 heq =>
        split
        next m2 e heq2 =>
          have hnu := updateStore_not_invalidArgument m1 other (fun g =>
            g.applyOps (_add_foreign_key_back_edges m1.transaction_id key graph_id (finsetList ks)))
          rw [heq2] at hnu
          exact hnu
        next m2 heq2 => exact ih m2

theorem insertForeignLoop_isSome (graph_id : GraphID) (key : Key) :
    ∀ (l : List (GraphID × Finset Key)) (m : Graph_manager) (x : GraphID),
      (m.graph_dict x).isSome →
      ((insertForeignLoop graph_id key m l).1.graph_dict x).isSome := by
  intro l
  induction l with
  | nil => intro m x h; exact h
  | cons p rest ih =>
      intro m x h
      obtain ⟨other, ks⟩ := p
      simp only [insertForeignLoop]
      split
      next m1 e heq =>
        have h1 := cine_isSome m other x h
        rw [heq] at h1
        exact h1
      next m1 heq =>
        have h1 := cine_isSome m other x h
        rw [heq] at h1
        split
        next m2 e heq2 =>
          have h2 := updateStore_isSome m1 other (fun g =>
            g.applyOps (_add_foreign_key_back_edges m1.transaction_id key graph_id (finsetList ks))) x h1
          rw [heq2] at h2
          exact h2
        next m2 heq2 =>
          have h2 := updateStore_isSome m1 other (fun g =>
            g.applyOps (_add_foreign_key_back_edges m1.transaction_id key graph_id (finsetList ks))) x h1
          rw [heq2] at h2
          exact ih m2 x h2

theorem insertForeignLoop_snd (graph_id : GraphID) (key : Key) :
    ∀ (l : List (GraphID × Finset Key)) (m : Graph_manager),
      (∀ p ∈ l, p.1 ≠ "") →
      (insertForeignLoop graph_id key m l).2 = none := by
  intro l
  induction l with
  | nil => intro m _; rfl
  | cons p rest ih =>
      intro m hl
      obtain ⟨other, ks⟩ := p
      have hother : other ≠ "" := hl (other, ks) (List.mem_cons_self _ _)
      have hs1 := cine_snd m other hother
      have hs2 := cine_isSome_self m other hother
      simp only [insertForeignLoop]
      split
      next m1 e heq =>
        rw [heq] at hs1
        exact absurd hs1 (by simp)
      next m1 heq =>
        rw [heq] at hs2
        have hsu := updateStore_snd m1 other (fun g =>
          g.applyOps (_add_foreign_key_back_edges m1.transaction_id key graph_id (finsetList ks))) hs2
        split
        next m2 e heq2 =>
          rw [heq2] at hsu
          exact absurd hsu (by simp)
        next m2 heq2 =>
          exact ih m2 (fun q hq => hl q (List.mem_cons_of_mem _ hq))

/-! Full-equation forms of the helpers, used to evaluate the facade operations
step by step. -/

theorem updateStore_eq (m : Graph_manager) (gid : GraphID) (f : Graph → Graph)
    (gr : Graph) (h : m.graph_dict gid = some gr) :
    m.updateStore gid f =
      ({ m with graph_dict := fun x =>
          if x = gid then some (f gr) else m.graph_dict x }, none) := by
  unfold Graph_manager.updateStore
  rw [h]

theorem cine_eq_present (m : Graph_manager) (gid : GraphID)
    (h : (m.graph_dict gid).isSome) : m.create_if_not_exists gid = (m, none) := by
  unfold Graph_manager.create_if_not_exists
  cases hd : m.graph_dict gid with
  | none => rw [hd] at h; simp at h
  | some g => simp [hd]

theorem cine_eq_absent (m : Graph_manager) (gid : GraphID)
    (h : m.graph_dict gid = none) (h2 : gid ≠ "") :
    m.create_if_not_exists gid =
      ({ m with graph_dict := fun x =>
          if x = gid then some (Graph.empty m.transaction_id) else m.graph_dict x }, none) := by
  unfold Graph_manager.create_if_not_exists Graph_manager.create_graph
  have hns : ¬ ((m.graph_dict gid).isSome : Prop) := by simp [h]
  simp [h, h2, hns]

/-! Evaluated forms of the manager mutators on a present graph. -/

theorem add_local_keys_tid (m : Graph_manager) (gid : GraphID) (key : Key)
    (ks : List Key) :
    (m.add_local_keys gid key ks).1.transaction_id = m.transaction_id + 1 := by
  unfold Graph_manager.add_local_keys
  dsimp only
  split
  next m2 e heq =>
    have h1 := updateStore_tid { m with transaction_id := m.transaction_id + 1 } gid
      (fun g => g.add_local_keys m.transaction_id.succ key ks)
    rw [heq] at h1
    exact h1
  next m2 heq =>
    have h1 := updateStore_tid { m with transaction_id := m.transaction_id + 1 } gid
      (fun g => g.add_local_keys m.transaction_id.succ key ks)
    rw [heq] at h1
    rw [updateStore_tid]
    exact h1

theorem add_local_keys_snd (m : Graph_manager) (gid : GraphID) (key : Key)
    (ks : List Key) (gr : Graph) (h : m.graph_dict gid = some gr) :
    (m.add_local_keys gid key ks).2 = none := by
  unfold Graph_manager.add_local_keys
  dsimp only
  rw [updateStore_eq { graph_dict := m.graph_dict, transaction_id := m.transaction_id + 1 }
    gid _ gr h]
  dsimp only
  rw [updateStore_eq _ gid _ (gr.add_local_keys (m.transaction_id + 1) key ks) (by simp)]

theorem add_local_keys_dict (m : Graph_manager) (gid : GraphID) (key : Key)
    (ks : List Key) (gr : Graph) (h : m.graph_dict gid = some gr) (x : GraphID) :
    (m.add_local_keys gid key ks).1.graph_dict x =
      if x = gid then
        some ((gr.add_local_keys (m.transaction_id + 1) key ks).applyOps
          (_add_local_key_back_edges (m.transaction_id + 1) key ks))
      else m.graph_dict x := by
  unfold Graph_manager.add_local_keys
  dsimp only
  rw [updateStore_eq { graph_dict := m.graph_dict, transaction_id := m.transaction_id + 1 }
    gid _ gr h]
  dsimp only
  rw [updateStore_eq _ gid _ (gr.add_local_keys (m.transaction_id + 1) key ks) (by simp)]
  by_cases hx : x = gid <;> simp [hx]

theorem add_foreign_keys_tid (m : Graph_manager) (gid : GraphID) (key : Key)
    (other : GraphID) (ks : List Key) :
    (m.add_foreign_keys gid key other ks).1.transaction_id = m.transaction_id + 1 := by
  unfold Graph_manager.add_foreign_keys
  dsimp only
  split
  next m2 e heq =>
    have h1 := updateStore_tid { graph_dict := m.graph_dict, transaction_id := m.transaction_id + 1 }
      gid (fun g => g.add_foreign_keys (m.transaction_id + 1) key other ks)
    rw [heq] at h1
    exact h1
  next m2 heq =>
    have h1 := updateStore_tid { graph_dict := m.graph_dict, transaction_id := m.transaction_id + 1 }
      gid (fun g => g.add_foreign_keys (m.transaction_id + 1) key other ks)
    rw [heq] at h1
    split
    next m3 e heq2 =>
      have h2 := cine_tid m2 other
      rw [heq2] at h2
      show m3.transaction_id = m.transaction_id + 1
      rw [h2]; exact h1
    next m3 heq2 =>
      have h2 := cine_tid m2 other
      rw [heq2] at h2
      rw [updateStore_tid]
      show m3.transaction_id = m.transaction_id + 1
      rw [h2]; exact h1

theorem add_foreign_keys_dict (m : Graph_manager) (gid : GraphID) (key : Key)
    (other : GraphID) (ks : List Key) (gr : Graph)
    (hgr : m.graph_dict gid = some gr) (h2 : other ≠ "") (x : GraphID) :
    (m.add_foreign_keys gid key other ks).1.graph_dict x =
      if x = other then
        some ((if other = gid then gr.add_foreign_keys (m.transaction_id + 1) key other ks
               else (m.graph_dict other).getD (Graph.empty (m.transaction_id + 1))).applyOps
          (_add_foreign_key_back_edges (m.transaction_id + 1) key gid ks))
      else if x = gid then some (gr.add_foreign_keys (m.transaction_id + 1) key other ks)
      else m.graph_dict x := by
  unfold Graph_manager.add_foreign_keys
  dsimp only
  rw [updateStore_eq { graph_dict := m.graph_dict, transaction_id := m.transaction_id + 1 }
    gid _ gr hgr]
  dsimp only
  by_cases hog : other = gid
  · rw [cine_eq_present _ other (by simp [hog])]
    dsimp only
    rw [updateStore_eq _ other _ (gr.add_foreign_keys (m.transaction_id + 1) key other ks)
      (by simp [hog])]
    dsimp only
    by_cases hx : x = other
    · subst hx; simp [hog]
    · by_cases hxg : x = gid <;> simp [hx, hxg, hog]
  · by_cases hpres : ((m.graph_dict other).isSome : Prop)
    · obtain ⟨gr2, hgr2⟩ := Option.isSome_iff_exists.mp hpres
      rw [cine_eq_present _ other (by simp [hog, hgr2])]
      dsimp only
      rw [updateStore_eq _ other _ gr2 (by simp [hog, hgr2])]
      dsimp only
      by_cases hx : x = other
      · subst hx; simp [hog, hgr2]
      · by_cases hxg : x = gid <;> simp [hx, hxg, Ne.symm hog]
    · have hnone : m.graph_dict other = none := by
        cases hd : m.graph_dict other with
        | none => rfl
        | some g => rw [hd] at hpres; simp at hpres
      rw [cine_eq_absent _ other (by simp [hog, hnone]) h2]
      dsimp only
      rw [updateStore_eq _ other _ (Graph.empty (m.transaction_id + 1)) (by simp)]
      dsimp only
      by_cases hx : x = other
      · subst hx; simp [hog, hnone]
      · by_cases hxg : x = gid <;> simp [hx, hxg, Ne.symm hog]

theorem add_foreign_keys_snd (m : Graph_manager) (gid : GraphID) (key : Key)
    (other : GraphID) (ks : List Key) (gr : Graph)
    (hgr : m.graph_dict gid = some gr) (h2 : other ≠ "") :
    (m.add_foreign_keys gid key other ks).2 = none := by
  unfold Graph_manager.add_foreign_keys
  dsimp only
  rw [updateStore_eq { graph_dict := m.graph_dict, transaction_id := m.transaction_id + 1 }
    gid _ gr hgr]
  dsimp only
  by_cases hog : other = gid
  · rw [cine_eq_present _ other (by simp [hog])]
    dsimp only
    rw [updateStore_eq _ other _ (gr.add_foreign_keys (m.transaction_id + 1) key other ks)
      (by simp [hog])]
  · by_cases hpres : ((m.graph_dict other).isSome : Prop)
    · obtain ⟨gr2, hgr2⟩ := Option.isSome_iff_exists.mp hpres
      rw [cine_eq_present _ other (by simp [hog, hgr2])]
      dsimp only
      rw [updateStore_eq _ other _ gr2 (by simp [hog, hgr2])]
    · have hnone : m.graph_dict other = none := by
        cases hd : m.graph_dict other with
        | none => rfl
        | some g => rw [hd] at hpres; simp at hpres
      rw [cine_eq_absent _ other (by simp [hog, hnone]) h2]
      dsimp only
      rw [updateStore_eq _ other _ (Graph.empty (m.transaction_id + 1)) (by simp)]

theorem LES_eq_some (m : Graph_manager) (x : GraphID) (k : Key) (g : Graph)
    (h : m.graph_dict x = some g) : m.LocalEdgeSet x k = g.local_edges k := by
  unfold Graph_manager.LocalEdgeSet
  rw [h]

theorem LES_eq_none (m : Graph_manager) (x : GraphID) (k : Key)
    (h : m.graph_dict x = none) : m.LocalEdgeSet x k = ∅ := by
  unfold Graph_manager.LocalEdgeSet
  rw [h]

theorem LES_congr (m m2 : Graph_manager) (x : GraphID) (k : Key)
    (h : m2.graph_dict x = m.graph_dict x) : m2.LocalEdgeSet x k = m.LocalEdgeSet x k := by
  unfold Graph_manager.LocalEdgeSet
  rw [h]

theorem FES_eq_some (m : Graph_manager) (x : GraphID) (k : Key) (g2 : GraphID) (g : Graph)
    (h : m.graph_dict x = some g) : m.ForeignEdgeSet x k g2 = g.foreign_edges k g2 := by
  unfold Graph_manager.ForeignEdgeSet
  rw [h]

theorem FES_eq_none (m : Graph_manager) (x : GraphID) (k : Key) (g2 : GraphID)
    (h : m.graph_dict x = none) : m.ForeignEdgeSet x k g2 = ∅ := by
  unfold Graph_manager.ForeignEdgeSet
  rw [h]

theorem FES_congr (m m2 : Graph_manager) (x : GraphID) (k : Key) (g2 : GraphID)
    (h : m2.graph_dict x = m.graph_dict x) : m2.ForeignEdgeSet x k g2 = m.ForeignEdgeSet x k g2 := by
  unfold Graph_manager.ForeignEdgeSet
  rw [h]

theorem add_local_keys_LES (m : Graph_manager) (gid : GraphID) (key : Key)
    (ks : List Key) (gr : Graph) (hgr : m.graph_dict gid = some gr) (x : GraphID) (k : Key) :
    (m.add_local_keys gid key ks).1.LocalEdgeSet x k =
      (m.LocalEdgeSet x k ∪ (if x = gid ∧ k = key then ks.toFinset else ∅))
        ∪ (if x = gid ∧ k ∈ ks then {key} else ∅) := by
  have hd := add_local_keys_dict m gid key ks gr hgr x
  by_cases hx : x = gid
  · rw [if_pos hx] at hd
    rw [LES_eq_some _ x k _ hd, applyOps_local_local_edges,
        LES_eq_some m x k gr (by rw [hx]; exact hgr)]
    simp only [Graph.add_local_keys]
    rw [hx]
    by_cases hk : k = key <;> by_cases hk2 : k ∈ ks <;>
      simp [hk, hk2, Finset.union_assoc]
  · rw [if_neg hx] at hd
    rw [LES_congr m _ x k hd]
    simp [hx]

theorem add_local_keys_FES (m : Graph_manager) (gid : GraphID) (key : Key)
    (ks : List Key) (gr : Graph) (hgr : m.graph_dict gid = some gr) (x : GraphID) (k : Key)
    (g2 : GraphID) :
    (m.add_local_keys gid key ks).1.ForeignEdgeSet x k g2 = m.ForeignEdgeSet x k g2 := by
  have hd := add_local_keys_dict m gid key ks gr hgr x
  by_cases hx : x = gid
  · rw [if_pos hx] at hd
    rw [FES_eq_some _ x k g2 _ hd, applyOps_local_foreign_edges,
        FES_eq_some m x k g2 gr (by rw [hx]; exact hgr)]
    rfl
  · rw [if_neg hx] at hd
    exact FES_congr m _ x k g2 hd

theorem add_local_keys_isSome (m : Graph_manager) (gid : GraphID) (key : Key)
    (ks : List Key) (gr : Graph) (hgr : m.graph_dict gid = some gr) (x : GraphID)
    (hx : (m.graph_dict x).isSome) :
    ((m.add_local_keys gid key ks).1.graph_dict x).isSome := by
  rw [add_local_keys_dict m gid key ks gr hgr x]
  by_cases hxg : x = gid <;> simp [hxg, hx]

theorem add_foreign_keys_FES (m : Graph_manager) (gid : GraphID) (key : Key)
    (other : GraphID) (ks : List Key) (gr : Graph)
    (hgr : m.graph_dict gid = some gr) (h2 : other ≠ "") (x : GraphID) (k : Key)
    (g2 : GraphID) :
    (m.add_foreign_keys gid key other ks).1.ForeignEdgeSet x k g2 =
      (m.ForeignEdgeSet x k g2 ∪ (if x = gid ∧ k = key ∧ g2 = other then ks.toFinset else ∅))
        ∪ (if x = other ∧ k ∈ ks ∧ g2 = gid then {key} else ∅) := by
  have hd := add_foreign_keys_dict m gid key other ks gr hgr h2 x
  by_cases hx : x = other
  · rw [if_pos hx] at hd
    by_cases hog : other = gid
    · rw [if_pos hog] at hd
      rw [FES_eq_some _ x k g2 _ hd, applyOps_foreign_foreign_edges,
          FES_eq_some m x k g2 gr (by rw [hx, hog]; exact hgr)]
      simp only [Graph.add_foreign_keys]
      rw [hx, hog]
      by_cases hP : k = key <;> by_cases hg2 : g2 = gid <;> by_cases hQ : k ∈ ks <;>
        simp [hP, hg2, hQ, Finset.union_assoc]
    · rw [if_neg hog] at hd
      cases hmo : m.graph_dict other with
      | some gother =>
          rw [hmo] at hd
          simp only [Option.getD_some] at hd
          rw [FES_eq_some _ x k g2 _ hd, applyOps_foreign_foreign_edges,
              FES_eq_some m x k g2 gother (by rw [hx]; exact hmo)]
          rw [hx]
          by_cases hQ1 : k ∈ ks <;> by_cases hQ2 : g2 = gid <;>
            simp [hQ1, hQ2, hog, Finset.union_assoc]
      | none =>
          rw [hmo] at hd
          simp only [Option.getD_none] at hd
          rw [FES_eq_some _ x k g2 _ hd, applyOps_foreign_foreign_edges,
              FES_eq_none m x k g2 (by rw [hx]; exact hmo)]
          rw [hx]
          simp only [Graph.empty]
          by_cases hQ1 : k ∈ ks <;> by_cases hQ2 : g2 = gid <;>
            simp [hQ1, hQ2, hog, Finset.union_assoc]
  · rw [if_neg hx] at hd
    by_cases hxg : x = gid
    · rw [if_pos hxg] at hd
      rw [FES_eq_some _ x k g2 _ hd, FES_eq_some m x k g2 gr (by rw [hxg]; exact hgr)]
      simp only [Graph.add_foreign_keys]
      have hgo : ¬ gid = other := fun hh => hx (hxg.trans hh)
      rw [hxg]
      by_cases hP : k = key <;> by_cases hg2 : g2 = other <;>
        simp [hP, hg2, hgo, Finset.union_assoc]
    · rw [if_neg hxg] at hd
      rw [FES_congr m _ x k g2 hd]
      simp [hx, hxg]

theorem add_foreign_keys_LES (m : Graph_manager) (gid : GraphID) (key : Key)
    (other : GraphID) (ks : List Key) (gr : Graph)
    (hgr : m.graph_dict gid = some gr) (h2 : other ≠ "") (x : GraphID) (k : Key) :
    (m.add_foreign_keys gid key other ks).1.LocalEdgeSet x k = m.LocalEdgeSet x k := by
  have hd := add_foreign_keys_dict m gid key other ks gr hgr h2 x
  by_cases hx : x = other
  · rw [if_pos hx] at hd
    by_cases hog : other = gid
    · rw [if_pos hog] at hd
      rw [LES_eq_some _ x k _ hd, applyOps_foreign_local_edges,
          LES_eq_some m x k gr (by rw [hx, hog]; exact hgr)]
      rfl
    · rw [if_neg hog] at hd
      cases hmo : m.graph_dict other with
      | some gother =>
          rw [hmo] at hd
          simp only [Option.getD_some] at hd
          rw [LES_eq_some _ x k _ hd, applyOps_foreign_local_edges,
              LES_eq_some m x k gother (by rw [hx]; exact hmo)]
      | none =>
          rw [hmo] at hd
          simp only [Option.getD_none] at hd
          rw [LES_eq_some _ x k _ hd, applyOps_foreign_local_edges,
              LES_eq_none m x k (by rw [hx]; exact hmo)]
          rfl
  · rw [if_neg hx] at hd
    by_cases hxg : x = gid
    · rw [if_pos hxg] at hd
      rw [LES_eq_some _ x k _ hd, LES_eq_some m x k gr (by rw [hxg]; exact hgr)]
      rfl
    · rw [if_neg hxg] at hd
      exact LES_congr m _ x k hd

theorem add_foreign_keys_isSome (m : Graph_manager) (gid : GraphID) (key : Key)
    (other : GraphID) (ks : List Key) (gr : Graph)
    (hgr : m.graph_dict gid = some gr) (h2 : other ≠ "") (x : GraphID)
    (hx : (m.graph_dict x).isSome ∨ x = other) :
    ((m.add_foreign_keys gid key other ks).1.graph_dict x).isSome := by
  have hd := add_foreign_keys_dict m gid key other ks gr hgr h2 x
  by_cases hxo : x = other
  · rw [if_pos hxo] at hd
    rw [hd]
    rfl
  · rcases hx with hx | hx
    · by_cases hxg : x = gid
      · rw [if_neg hxo, if_pos hxg] at hd
        rw [hd]
        rfl
      · rw [if_neg hxo, if_neg hxg] at hd
        rw [hd]
        exact hx
    · exact absurd hx hxo

/-! Evaluated forms of insert. -/

theorem insert_unfold (m : Graph_manager) (gid : GraphID) (key : Key) (node : Row)
    (lk : Finset Key) (fks : List (GraphID × Finset Key)) (hgid : gid ≠ "") :
    m.insert gid key node lk (.dict fks) =
      insertForeignLoop gid key
        { graph_dict := fun x =>
            if x = gid then
              some ((((m.graph_dict gid).getD (Graph.empty (m.transaction_id + 1))).insert key
                node lk fks (m.transaction_id + 1)).applyOps
                (_add_local_key_back_edges (m.transaction_id + 1) key (finsetList lk)))
            else m.graph_dict x,
          transaction_id := m.transaction_id + 1 } fks := by
  unfold Graph_manager.insert
  dsimp only
  by_cases hpres : ((m.graph_dict gid).isSome : Prop)
  · obtain ⟨gr0, hgr0⟩ := Option.isSome_iff_exists.mp hpres
    rw [cine_eq_present { graph_dict := m.graph_dict, transaction_id := m.transaction_id + 1 }
      gid hpres]
    dsimp only
    rw [updateStore_eq { graph_dict := m.graph_dict, transaction_id := m.transaction_id + 1 }
      gid _ gr0 hgr0]
    dsimp only
    rw [updateStore_eq _ gid _ (gr0.insert key node lk fks (m.transaction_id + 1)) (by simp)]
    dsimp only
    congr 1
    simp only [Graph_manager.mk.injEq, and_true]
    funext x
    by_cases hx : x = gid <;> simp [hx, hgr0]
  · have hnone : m.graph_dict gid = none := by
      cases hd : m.graph_dict gid with
      | none => rfl
      | some g => rw [hd] at hpres; simp at hpres
    rw [cine_eq_absent { graph_dict := m.graph_dict, transaction_id := m.transaction_id + 1 }
      gid hnone hgid]
    dsimp only
    rw [updateStore_eq _ gid _ (Graph.empty (m.transaction_id + 1)) (by simp)]
    dsimp only
    rw [updateStore_eq _ gid _
      ((Graph.empty (m.transaction_id + 1)).insert key node lk fks (m.transaction_id + 1))
      (by simp)]
    dsimp only
    congr 1
    simp only [Graph_manager.mk.injEq, and_true]
    funext x
    by_cases hx : x = gid <;> simp [hx, hnone]

theorem insertForeignLoop_single_dict (gid : GraphID) (key : Key) (M : Graph_manager)
    (H : GraphID) (ks : Finset Key) (hH : H ≠ "") (x : GraphID) :
    (insertForeignLoop gid key M [(H, ks)]).1.graph_dict x =
      if x = H then
        some (((M.graph_dict H).getD (Graph.empty M.transaction_id)).applyOps
          (_add_foreign_key_back_edges M.transaction_id key gid (finsetList ks)))
      else M.graph_dict x := by
  simp only [insertForeignLoop]
  by_cases hpres : ((M.graph_dict H).isSome : Prop)
  · obtain ⟨gr2, hgr2⟩ := Option.isSome_iff_exists.mp hpres
    rw [cine_eq_present M H hpres]
    dsimp only
    rw [updateStore_eq M H _ gr2 hgr2]
    dsimp only
    by_cases hx : x = H <;> simp [insertForeignLoop, hx, hgr2]
  · have hnone : M.graph_dict H = none := by
      cases hd : M.graph_dict H with
      | none => rfl
      | some g => rw [hd] at hpres; simp at hpres
    rw [cine_eq_absent M H hnone hH]
    dsimp only
    rw [updateStore_eq _ H _ (Graph.empty M.transaction_id) (by simp)]
    dsimp only
    by_cases hx : x = H <;> simp [insertForeignLoop, hx, hnone]

theorem insert_nondict (m : Graph_manager) (gid : GraphID) (key : Key) (node : Row)
    (lk : Finset Key) :
    m.insert gid key node lk .nondict =
      ({ graph_dict := m.graph_dict, transaction_id := m.transaction_id + 1 },
       some UrsaError.invalidArgument) := rfl

theorem insert_tid (m : Graph_manager) (gid : GraphID) (key : Key) (node : Row)
    (lk : Finset Key) (fk : ForeignArg) :
    (m.insert gid key node lk fk).1.transaction_id = m.transaction_id + 1 := by
  unfold Graph_manager.insert
  dsimp only
  cases fk with
  | nondict => rfl
  | dict fks =>
      dsimp only
      split
      next m2 e heq =>
        have h1 := cine_tid { graph_dict := m.graph_dict, transaction_id := m.transaction_id + 1 } gid
        rw [heq] at h1
        exact h1
      next m2 heq =>
        have h1 := cine_tid { graph_dict := m.graph_dict, transaction_id := m.transaction_id + 1 } gid
        rw [heq] at h1
        split
        next m3 e heq2 =>
          have h2 := updateStore_tid m2 gid
            (fun g => g.insert key node lk fks m2.transaction_id)
          rw [heq2] at h2
          show m3.transaction_id = m.transaction_id + 1
          rw [h2]; exact h1
        next m3 heq2 =>
          have h2 := updateStore_tid m2 gid
            (fun g => g.insert key node lk fks m2.transaction_id)
          rw [heq2] at h2
          split
          next m4 e heq3 =>
            have h3 := updateStore_tid m3 gid (fun g =>
              g.applyOps (_add_local_key_back_edges m3.transaction_id key (finsetList lk)))
            rw [heq3] at h3
            show m4.transaction_id = m.transaction_id + 1
            rw [h3, h2]; exact h1
          next m4 heq3 =>
            have h3 := updateStore_tid m3 gid (fun g =>
              g.applyOps (_add_local_key_back_edges m3.transaction_id key (finsetList lk)))
            rw [heq3] at h3
            rw [insertForeignLoop_tid gid key fks m4, h3, h2]
            exact h1

theorem insert_dict_not_invalidArgument (m : Graph_manager) (gid : GraphID) (key : Key)
    (node : Row) (lk : Finset Key) (fks : List (GraphID × Finset Key)) :
    (m.insert gid key node lk (.dict fks)).2 ≠ some UrsaError.invalidArgument := by
  unfold Graph_manager.insert
  dsimp only
  split
  next m2 e heq =>
    have h1 := cine_not_invalidArgument
      { graph_dict := m.graph_dict, transaction_id := m.transaction_id + 1 } gid
    rw [heq] at h1
    exact h1
  next m2 heq =>
    split
    next m3 e heq2 =>
      have h2 := updateStore_not_invalidArgument m2 gid
        (fun g => g.insert key node lk fks m2.transaction_id)
      rw [heq2] at h2
      exact h2
    next m3 heq2 =>
      split
      next m4 e heq3 =>
        have h3 := updateStore_not_invalidArgument m3 gid (fun g =>
          g.applyOps (_add_local_key_back_edges m3.transaction_id key (finsetList lk)))
        rw [heq3] at h3
        exact h3
      next m4 heq3 => exact insertForeignLoop_not_invalidArgument gid key fks m4

theorem insert_snd (m : Graph_manager) (gid : GraphID) (key : Key) (node : Row)
    (lk : Finset Key) (fks : List (GraphID × Finset Key)) (hgid : gid ≠ "")
    (hf : ∀ p ∈ fks, p.1 ≠ "") :
    (m.insert gid key node lk (.dict fks)).2 = none := by
  rw [insert_unfold m gid key node lk fks hgid]
  exact insertForeignLoop_snd gid key fks _ hf

theorem insert_creates (m : Graph_manager) (gid : GraphID) (key : Key) (node : Row)
    (lk : Finset Key) (fks : List (GraphID × Finset Key)) (hgid : gid ≠ "") :
    ((m.insert gid key node lk (.dict fks)).1.graph_dict gid).isSome := by
  rw [insert_unfold m gid key node lk fks hgid]
  exact insertForeignLoop_isSome gid key fks _ gid (by simp)

theorem insertForeignLoop_creates (graph_id : GraphID) (key : Key) :
    ∀ (l : List (GraphID × Finset Key)) (m : Graph_manager),
      (∀ p ∈ l, p.1 ≠ "") → ∀ p ∈ l,
      ((insertForeignLoop graph_id key m l).1.graph_dict p.1).isSome := by
  intro l
  induction l with
  | nil =>
      intro m _ p hp
      exact absurd hp (List.not_mem_nil p)
  | cons q rest ih =>
      intro m hl p hp
      obtain ⟨other, ks⟩ := q
      have hother : other ≠ "" := hl (other, ks) (List.mem_cons_self _ _)
      have hs1 := cine_snd m other hother
      have hs2 := cine_isSome_self m other hother
      simp only [insertForeignLoop]
      split
      next m1 e heq =>
        rw [heq] at hs1
        exact absurd hs1 (by simp)
      next m1 heq =>
        rw [heq] at hs2
        have hsu := updateStore_snd m1 other (fun g =>
          g.applyOps (_add_foreign_key_back_edges m1.transaction_id key graph_id
            (finsetList ks))) hs2
        split
        next m2 e heq2 =>
          rw [heq2] at hsu
          exact absurd hsu (by simp)
        next m2 heq2 =>
          have hm2 : (m2.graph_dict other).isSome := by
            have hpre := updateStore_isSome m1 other (fun g =>
              g.applyOps (_add_foreign_key_back_edges m1.transaction_id key graph_id
                (finsetList ks))) other hs2
            rw [heq2] at hpre
            exact hpre
          rcases List.mem_cons.mp hp with hpq | hpr
          · rw [hpq]
            exact insertForeignLoop_isSome graph_id key rest m2 other hm2
          · exact ih m2 (fun q2 hq2 => hl q2 (List.mem_cons_of_mem _ hq2)) p hpr

theorem insert_creates_foreign (m : Graph_manager) (gid : GraphID) (key : Key)
    (node : Row) (lk : Finset Key) (fks : List (GraphID × Finset Key))
    (hgid : gid ≠ "") (hf : ∀ p ∈ fks, p.1 ≠ "") (p : GraphID × Finset Key)
    (hp : p ∈ fks) :
    ((m.insert gid key node lk (.dict fks)).1.graph_dict p.1).isSome := by
  rw [insert_unfold m gid key node lk fks hgid]
  exact insertForeignLoop_creates gid key fks _ hf p hp

theorem delete_row_eq_none (m : Graph_manager) (gid : GraphID) (key : Key)
    (h : m.graph_dict gid = none) :
    m.delete_row gid key =
      ({ graph_dict := m.graph_dict, transaction_id := m.transaction_id + 1 },
       some UrsaError.keyError) := by
  unfold Graph_manager.delete_row
  dsimp only
  exact updateStore_none _ gid _ h

theorem delete_row_tid (m : Graph_manager) (gid : GraphID) (key : Key) :
    (m.delete_row gid key).1.transaction_id = m.transaction_id + 1 := by
  unfold Graph_manager.delete_row
  dsimp only
  rw [updateStore_tid]

theorem add_local_keys_eq_none (m : Graph_manager) (gid : GraphID) (key : Key)
    (ks : List Key) (h : m.graph_dict gid = none) :
    m.add_local_keys gid key ks =
      ({ graph_dict := m.graph_dict, transaction_id := m.transaction_id + 1 },
       some UrsaError.keyError) := by
  unfold Graph_manager.add_local_keys
  dsimp only
  rw [updateStore_none { graph_dict := m.graph_dict, transaction_id := m.transaction_id + 1 }
    gid _ h]

theorem add_foreign_keys_eq_none (m : Graph_manager) (gid : GraphID) (key : Key)
    (other : GraphID) (ks : List Key) (h : m.graph_dict gid = none) :
    m.add_foreign_keys gid key other ks =
      ({ graph_dict := m.graph_dict, transaction_id := m.transaction_id + 1 },
       some UrsaError.keyError) := by
  unfold Graph_manager.add_foreign_keys
  dsimp only
  rw [updateStore_none { graph_dict := m.graph_dict, transaction_id := m.transaction_id + 1 }
    gid _ h]

theorem node_exists_of_none (m : Graph_manager) (gid : GraphID) (key : Key)
    (h : m.graph_dict gid = none) : m.node_exists gid key = false := by
  unfold Graph_manager.node_exists
  rw [h]

theorem insert_nil_dict (m : Graph_manager) (gid : GraphID) (key : Key) (node : Row)
    (lk : Finset Key) (hgid : gid ≠ "") (x : GraphID) :
    (m.insert gid key node lk (.dict [])).1.graph_dict x =
      if x = gid then
        some ((((m.graph_dict gid).getD (Graph.empty (m.transaction_id + 1))).insert key node lk
          [] (m.transaction_id + 1)).applyOps
          (_add_local_key_back_edges (m.transaction_id + 1) key (finsetList lk)))
      else m.graph_dict x := by
  rw [insert_unfold m gid key node lk [] hgid]
  simp only [insertForeignLoop]

theorem insert_nil_LES (m : Graph_manager) (gid : GraphID) (key : Key) (node : Row)
    (lk : Finset Key) (hgid : gid ≠ "") (k : Key) :
    (m.insert gid key node lk (.dict [])).1.LocalEdgeSet gid k =
      (if k = key then lk else m.LocalEdgeSet gid k) ∪ (if k ∈ lk then {key} else ∅) := by
  have hd := insert_nil_dict m gid key node lk hgid gid
  rw [if_pos rfl] at hd
  rw [LES_eq_some _ gid k _ hd, applyOps_local_local_edges]
  simp only [Graph.insert]
  cases hm : m.graph_dict gid with
  | some gr0 =>
      rw [LES_eq_some m gid k gr0 hm]
      simp only [hm, Option.getD_some]
      by_cases hk : k = key <;> by_cases hk2 : k ∈ lk <;>
        simp [hk, hk2, finsetList, Finset.mem_sort]
  | none =>
      rw [LES_eq_none m gid k hm]
      simp only [hm, Option.getD_none]
      by_cases hk : k = key <;> by_cases hk2 : k ∈ lk <;>
        simp [hk, hk2, finsetList, Finset.mem_sort, Graph.empty]

theorem insert_single_dict (m : Graph_manager) (gid : GraphID) (key : Key) (node : Row)
    (lk : Finset Key) (H : GraphID) (fk_set : Finset Key) (hgid : gid ≠ "") (hH : H ≠ "")
    (x : GraphID) :
    (m.insert gid key node lk (.dict [(H, fk_set)])).1.graph_dict x =
      if x = H then
        some (((if H = gid then
            some ((((m.graph_dict gid).getD (Graph.empty (m.transaction_id + 1))).insert key
              node lk [(H, fk_set)] (m.transaction_id + 1)).applyOps
              (_add_local_key_back_edges (m.transaction_id + 1) key (finsetList lk)))
          else m.graph_dict H).getD (Graph.empty (m.transaction_id + 1))).applyOps
          (_add_foreign_key_back_edges (m.transaction_id + 1) key gid (finsetList fk_set)))
      else if x = gid then
        some ((((m.graph_dict gid).getD (Graph.empty (m.transaction_id + 1))).insert key node lk
          [(H, fk_set)] (m.transaction_id + 1)).applyOps
          (_add_local_key_back_edges (m.transaction_id + 1) key (finsetList lk)))
      else m.graph_dict x := by
  rw [insert_unfold m gid key node lk [(H, fk_set)] hgid]
  rw [insertForeignLoop_single_dict gid key _ H fk_set hH x]

/-! The claims. -/

/-- A concrete manager holding one graph named G, used to instantiate the
hypothesis-bearing theorems below. -/
def M1 : Graph_manager := (Graph_manager.new.create_graph (some "G") true).1

/-- C6: create_graph fails with InvalidName when the name is empty or absent,
fails with DuplicateName when the (nonempty) name already maps to a store — in
particular a second identical call fails — and otherwise registers a new store
under the name. -/
theorem c6_create_graph_validation :
    (∀ m : Graph_manager, (m.create_graph none true).2 = some UrsaError.invalidName) ∧
    (∀ m : Graph_manager, (m.create_graph (some "") true).2 = some UrsaError.invalidName) ∧
    (∀ (m : Graph_manager) (gid : GraphID), gid ≠ "" → (m.graph_dict gid).isSome →
      (m.create_graph (some gid) true).2 = some UrsaError.duplicateName) ∧
    (∀ (m : Graph_manager) (gid : GraphID), gid ≠ "" → m.graph_dict gid = none →
      (m.create_graph (some gid) true).2 = none ∧
      ((m.create_graph (some gid) true).1.graph_dict gid).isSome) ∧
    (∀ (m : Graph_manager) (gid : GraphID), gid ≠ "" → m.graph_dict gid = none →
      ((m.create_graph (some gid) true).1.create_graph (some gid) true).2 =
        some UrsaError.duplicateName) := by
  refine ⟨?_, ?_, ?_, ?_, ?_⟩
  · intro m
    rfl
  · intro m
    simp [Graph_manager.create_graph]
  · intro m gid hgid h
    simp [Graph_manager.create_graph, hgid, h]
  · intro m gid hgid h
    simp [Graph_manager.create_graph, hgid, h]
  · intro m gid hgid h
    simp [Graph_manager.create_graph, hgid, h]

/-- C6 witness at a concrete registry. -/
theorem c6_create_graph_validation_witness :
    (M1.create_graph (some "G") true).2 = some UrsaError.duplicateName ∧
    (M1.create_graph (some "H") true).2 = none ∧
    ((Graph_manager.new.create_graph (some "G") true).1.create_graph (some "G") true).2 =
      some UrsaError.duplicateName :=
  ⟨c6_create_graph_validation.2.2.1 M1 "G" (by decide) (by rfl),
   (c6_create_graph_validation.2.2.2.1 M1 "H" (by decide) (by rfl)).1,
   c6_create_graph_validation.2.2.2.2 Graph_manager.new "G" (by decide) rfl⟩

/-- C10: a create_graph call that fails with InvalidName or DuplicateName, and
an insert call that fails with InvalidArgument, still increment the
transaction id by one, while graph_dict is left unchanged. -/
theorem c10_failed_calls_bump_counter :
    (∀ m : Graph_manager,
      (m.create_graph none true).2 = some UrsaError.invalidName ∧
      (m.create_graph none true).1.transaction_id = m.transaction_id + 1 ∧
      (m.create_graph none true).1.graph_dict = m.graph_dict) ∧
    (∀ m : Graph_manager,
      (m.create_graph (some "") true).2 = some UrsaError.invalidName ∧
      (m.create_graph (some "") true).1.transaction_id = m.transaction_id + 1 ∧
      (m.create_graph (some "") true).1.graph_dict = m.graph_dict) ∧
    (∀ (m : Graph_manager) (gid : GraphID), gid ≠ "" → (m.graph_dict gid).isSome →
      (m.create_graph (some gid) true).2 = some UrsaError.duplicateName ∧
      (m.create_graph (some gid) true).1.transaction_id = m.transaction_id + 1 ∧
      (m.create_graph (some gid) true).1.graph_dict = m.graph_dict) ∧
    (∀ (m : Graph_manager) (gid : GraphID) (key : Key) (node : Row) (lk : Finset Key),
      (m.insert gid key node lk .nondict).2 = some UrsaError.invalidArgument ∧
      (m.insert gid key node lk .nondict).1.transaction_id = m.transaction_id + 1 ∧
      (m.insert gid key node lk .nondict).1.graph_dict = m.graph_dict) := by
  refine ⟨?_, ?_, ?_, ?_⟩
  · intro m
    exact ⟨rfl, rfl, rfl⟩
  · intro m
    refine ⟨?_, ?_, ?_⟩ <;> simp [Graph_manager.create_graph]
  · intro m gid hgid h
    refine ⟨?_, ?_, ?_⟩ <;> simp [Graph_manager.create_graph, hgid, h]
  · intro m gid key node lk
    rw [insert_nondict]
    exact ⟨rfl, rfl, rfl⟩

/-- C10 witness at a concrete registry. -/
theorem c10_failed_calls_bump_counter_witness :
    ((M1.create_graph (some "G") true).2 = some UrsaError.duplicateName ∧
      (M1.create_graph (some "G") true).1.transaction_id = M1.transaction_id + 1 ∧
      (M1.create_graph (some "G") true).1.graph_dict = M1.graph_dict) ∧
    ((M1.insert "G" "k" "v" ∅ .nondict).2 = some UrsaError.invalidArgument ∧
      (M1.insert "G" "k" "v" ∅ .nondict).1.transaction_id = M1.transaction_id + 1 ∧
      (M1.insert "G" "k" "v" ∅ .nondict).1.graph_dict = M1.graph_dict) :=
  ⟨c10_failed_calls_bump_counter.2.2.1 M1 "G" (by decide) (by rfl),
   c10_failed_calls_bump_counter.2.2.2 M1 "G" "k" "v" ∅⟩

/-- C8: node_exists returns false whenever the graph id is not registered; the
embedding of node_exists is a pure read of the manager state, so no store or
registry entry is created on this path. -/
theorem c8_node_exists_unknown_graph (m : Graph_manager) (gid : GraphID) (key : Key)
    (h : m.graph_dict gid = none) : m.node_exists gid key = false :=
  node_exists_of_none m gid key h

/-- C8 witness on the empty registry. -/
theorem c8_node_exists_unknown_graph_witness :
    Graph_manager.new.node_exists "G" "k" = false :=
  c8_node_exists_unknown_graph Graph_manager.new "G" "k" rfl

/-- C4: every manager-level mutating call (create_graph, insert, delete_row,
add_local_keys, add_foreign_keys) increments the transaction id by exactly one
— so the id is monotonically increasing over any call sequence — while the
auto-creation path _create_if_not_exists leaves the counter untouched and
stamps the store it creates with the calling operation's current id. -/
theorem c4_transaction_id_discipline :
    (∀ (m : Graph_manager) (go : Option GraphID),
      (m.create_graph go true).1.transaction_id = m.transaction_id + 1) ∧
    (∀ (m : Graph_manager) (gid : GraphID) (key : Key) (node : Row) (lk : Finset Key)
      (fk : ForeignArg),
      (m.insert gid key node lk fk).1.transaction_id = m.transaction_id + 1) ∧
    (∀ (m : Graph_manager) (gid : GraphID) (key : Key),
      (m.delete_row gid key).1.transaction_id = m.transaction_id + 1) ∧
    (∀ (m : Graph_manager) (gid : GraphID) (key : Key) (ks : List Key),
      (m.add_local_keys gid key ks).1.transaction_id = m.transaction_id + 1) ∧
    (∀ (m : Graph_manager) (gid : GraphID) (key : Key) (other : GraphID) (ks : List Key),
      (m.add_foreign_keys gid key other ks).1.transaction_id = m.transaction_id + 1) ∧
    (∀ (m : Graph_manager) (gid : GraphID),
      (m.create_if_not_exists gid).1.transaction_id = m.transaction_id) ∧
    (∀ (m : Graph_manager) (gid : GraphID), gid ≠ "" → m.graph_dict gid = none →
      (m.create_if_not_exists gid).1.graph_dict gid = some (Graph.empty m.transaction_id)) := by
  refine ⟨?_, ?_, ?_, ?_, ?_, ?_, ?_⟩
  · intro m go
    exact create_graph_tid_true m go
  · intro m gid key node lk fk
    exact insert_tid m gid key node lk fk
  · intro m gid key
    exact delete_row_tid m gid key
  · intro m gid key ks
    exact add_local_keys_tid m gid key ks
  · intro m gid key other ks
    exact add_foreign_keys_tid m gid key other ks
  · intro m gid
    exact cine_tid m gid
  · intro m gid hgid h
    rw [cine_dict]
    simp [h, hgid]

/-- C4 witness at concrete calls. -/
theorem c4_transaction_id_discipline_witness :
    (M1.add_local_keys "G" "k" ["a"]).1.transaction_id = M1.transaction_id + 1 ∧
    (Graph_manager.new.create_if_not_exists "G").1.graph_dict "G" =
      some (Graph.empty Graph_manager.new.transaction_id) :=
  ⟨c4_transaction_id_discipline.2.2.2.1 M1 "G" "k" ["a"],
   c4_transaction_id_discipline.2.2.2.2.2.2 Graph_manager.new "G" (by decide) rfl⟩

/-- C5: the detached local back-edge propagator issues, for each key k of the
given collection, the call add_local_keys(tid, k, origin_key) on the store it
is handed, and the foreign propagator issues add_foreign_keys(tid, k,
origin_graph_id, origin_key); every issued call carries the originating
transaction id unchanged. -/
theorem c5_propagator_traces :
    (∀ (t : Nat) (key : Key) (ks : List Key) (k : Key), k ∈ ks →
      StoreOp.add_local t k [key] ∈ _add_local_key_back_edges t key ks) ∧
    (∀ (t : Nat) (key : Key) (gid : GraphID) (ks : List Key) (k : Key), k ∈ ks →
      StoreOp.add_foreign t k gid [key] ∈ _add_foreign_key_back_edges t key gid ks) ∧
    (∀ (t : Nat) (key : Key) (ks : List Key) (op : StoreOp),
      op ∈ _add_local_key_back_edges t key ks → op.transaction_id = t) ∧
    (∀ (t : Nat) (key : Key) (gid : GraphID) (ks : List Key) (op : StoreOp),
      op ∈ _add_foreign_key_back_edges t key gid ks → op.transaction_id = t) := by
  refine ⟨?_, ?_, ?_, ?_⟩
  · intro t key ks k hk
    exact List.mem_map_of_mem _ hk
  · intro t key gid ks k hk
    exact List.mem_map_of_mem _ hk
  · intro t key ks op hop
    obtain ⟨k, _, rfl⟩ := List.mem_map.mp hop
    rfl
  · intro t key gid ks op hop
    obtain ⟨k, _, rfl⟩ := List.mem_map.mp hop
    rfl

/-- C5 witness on a concrete collection. -/
theorem c5_propagator_traces_witness :
    StoreOp.add_local 7 "A" ["K"] ∈ _add_local_key_back_edges 7 "K" ["A", "B"] ∧
    StoreOp.add_foreign 7 "A" "G" ["K"] ∈ _add_foreign_key_back_edges 7 "K" "G" ["A"] ∧
    (StoreOp.add_local 7 "A" ["K"]).transaction_id = 7 :=
  ⟨c5_propagator_traces.1 7 "K" ["A", "B"] "A" (by decide),
   c5_propagator_traces.2.1 7 "K" "G" ["A"] "A" (by decide),
   c5_propagator_traces.2.2.1 7 "K" ["A", "B"] (StoreOp.add_local 7 "A" ["K"])
     (c5_propagator_traces.1 7 "K" ["A", "B"] "A" (by decide))⟩

/-- C7: insert raises InvalidArgument exactly when foreign_keys is not a dict,
and this validation failure happens before any store is touched: graph_dict is
unchanged by the failed call. -/
theorem c7_insert_validation (m : Graph_manager) (gid : GraphID) (key : Key) (node : Row)
    (lk : Finset Key) (fk : ForeignArg) :
    ((m.insert gid key node lk fk).2 = some UrsaError.invalidArgument ↔
      fk = ForeignArg.nondict) ∧
    (fk = ForeignArg.nondict → (m.insert gid key node lk fk).1.graph_dict = m.graph_dict) := by
  cases fk with
  | nondict =>
      rw [insert_nondict]
      exact ⟨by simp, fun _ => rfl⟩
  | dict fks =>
      constructor
      · constructor
        · intro h
          exact absurd h (insert_dict_not_invalidArgument m gid key node lk fks)
        · intro h
          exact absurd h (by simp)
      · intro h
        exact absurd h (by simp)

/-- C7 witness: the failing call at a concrete input. -/
theorem c7_insert_validation_witness :
    (Graph_manager.new.insert "G" "k" "v" ∅ ForeignArg.nondict).2 =
      some UrsaError.invalidArgument ∧
    (Graph_manager.new.insert "G" "k" "v" ∅ ForeignArg.nondict).1.graph_dict =
      Graph_manager.new.graph_dict :=
  ⟨(c7_insert_validation Graph_manager.new "G" "k" "v" ∅ ForeignArg.nondict).1.mpr rfl,
   (c7_insert_validation Graph_manager.new "G" "k" "v" ∅ ForeignArg.nondict).2 rfl⟩

/-- C1: after insert with a local key, or add_local_keys, and the triggered
local back-edge propagation completes, the pair is symmetrically linked: k1 is
in the local edge set of k2 and k2 is in the local edge set of k1, within the
same graph G. -/
theorem c1_local_edge_symmetry (m : Graph_manager) (G : GraphID) (k1 k2 : Key)
    (v : Row) (hG : G ≠ "") (hpres : (m.graph_dict G).isSome) :
    (k1 ∈ (m.insert G k2 v {k1} (.dict [])).1.LocalEdgeSet G k2 ∧
     k2 ∈ (m.insert G k2 v {k1} (.dict [])).1.LocalEdgeSet G k1) ∧
    (k1 ∈ (m.add_local_keys G k2 [k1]).1.LocalEdgeSet G k2 ∧
     k2 ∈ (m.add_local_keys G k2 [k1]).1.LocalEdgeSet G k1) := by
  obtain ⟨gr, hgr⟩ := Option.isSome_iff_exists.mp hpres
  refine ⟨⟨?_, ?_⟩, ?_, ?_⟩
  · rw [insert_nil_LES m G k2 v {k1} hG k2]
    simp
  · rw [insert_nil_LES m G k2 v {k1} hG k1]
    simp
  · rw [add_local_keys_LES m G k2 [k1] gr hgr G k2]
    simp
  · rw [add_local_keys_LES m G k2 [k1] gr hgr G k1]
    simp

/-- C1 witness on a concrete graph. -/
theorem c1_local_edge_symmetry_witness :
    ("K1" ∈ (M1.insert "G" "K2" "V2" {"K1"} (.dict [])).1.LocalEdgeSet "G" "K2" ∧
     "K2" ∈ (M1.insert "G" "K2" "V2" {"K1"} (.dict [])).1.LocalEdgeSet "G" "K1") ∧
    ("K1" ∈ (M1.add_local_keys "G" "K2" ["K1"]).1.LocalEdgeSet "G" "K2" ∧
     "K2" ∈ (M1.add_local_keys "G" "K2" ["K1"]).1.LocalEdgeSet "G" "K1") :=
  c1_local_edge_symmetry M1 "G" "K1" "K2" "V2" (by decide) (by rfl)

/-- C2: after insert with a foreign key under graph H, or add_foreign_keys,
and the triggered foreign back-edge propagation completes, the cross-graph
edge is symmetric — fk sits in the foreign map of (G, k) under H and k sits in
the foreign map of (H, fk) under G — and H is auto-created if absent. -/
theorem c2_foreign_edge_symmetry (m : Graph_manager) (G H : GraphID) (k fk : Key)
    (v : Row) (hpres : (m.graph_dict G).isSome) (hG : G ≠ "") (hH : H ≠ "") :
    (fk ∈ (m.insert G k v ∅ (.dict [(H, {fk})])).1.ForeignEdgeSet G k H ∧
     k ∈ (m.insert G k v ∅ (.dict [(H, {fk})])).1.ForeignEdgeSet H fk G ∧
     ((m.insert G k v ∅ (.dict [(H, {fk})])).1.graph_dict H).isSome) ∧
    (fk ∈ (m.add_foreign_keys G k H [fk]).1.ForeignEdgeSet G k H ∧
     k ∈ (m.add_foreign_keys G k H [fk]).1.ForeignEdgeSet H fk G ∧
     ((m.add_foreign_keys G k H [fk]).1.graph_dict H).isSome) := by
  obtain ⟨gr, hgr⟩ := Option.isSome_iff_exists.mp hpres
  refine ⟨⟨?_, ?_, ?_⟩, ?_, ?_, ?_⟩
  · have hd := insert_single_dict m G k v ∅ H {fk} hG hH G
    by_cases hGH : G = H
    · rw [if_pos hGH, if_pos hGH.symm] at hd
      simp only [Option.getD_some] at hd
      rw [FES_eq_some _ G k H _ hd, applyOps_foreign_foreign_edges,
          applyOps_local_foreign_edges]
      simp only [Graph.insert]
      simp [List.lookup]
    · rw [if_neg hGH, if_pos rfl] at hd
      rw [FES_eq_some _ G k H _ hd, applyOps_local_foreign_edges]
      simp only [Graph.insert]
      simp [List.lookup]
  · have hd := insert_single_dict m G k v ∅ H {fk} hG hH H
    rw [if_pos rfl] at hd
    rw [FES_eq_some _ H fk G _ hd, applyOps_foreign_foreign_edges]
    have hcond : fk ∈ finsetList ({fk} : Finset Key) ∧ G = G :=
      ⟨by simp [finsetList, Finset.mem_sort], rfl⟩
    rw [if_pos hcond]
    simp
  · have hd := insert_single_dict m G k v ∅ H {fk} hG hH H
    rw [if_pos rfl] at hd
    rw [hd]
    rfl
  · rw [add_foreign_keys_FES m G k H [fk] gr hgr hH G k H]
    simp
  · rw [add_foreign_keys_FES m G k H [fk] gr hgr hH H fk G]
    simp
  · exact add_foreign_keys_isSome m G k H [fk] gr hgr hH H (Or.inr rfl)

/-- C2 witness on a concrete pair of graphs. -/
theorem c2_foreign_edge_symmetry_witness :
    ("FK" ∈ (M1.insert "G" "K3" "V3" ∅ (.dict [("H", {"FK"})])).1.ForeignEdgeSet "G" "K3" "H" ∧
     "K3" ∈ (M1.insert "G" "K3" "V3" ∅ (.dict [("H", {"FK"})])).1.ForeignEdgeSet "H" "FK" "G" ∧
     ((M1.insert "G" "K3" "V3" ∅ (.dict [("H", {"FK"})])).1.graph_dict "H").isSome) ∧
    ("FK" ∈ (M1.add_foreign_keys "G" "K3" "H" ["FK"]).1.ForeignEdgeSet "G" "K3" "H" ∧
     "K3" ∈ (M1.add_foreign_keys "G" "K3" "H" ["FK"]).1.ForeignEdgeSet "H" "FK" "G" ∧
     ((M1.add_foreign_keys "G" "K3" "H" ["FK"]).1.graph_dict "H").isSome) :=
  c2_foreign_edge_symmetry M1 "G" "H" "K3" "FK" "V3" (by rfl) (by decide) (by decide)

/-- C3 counterexample: delete_row addressed to an unregistered graph id fails
with KeyError and registers nothing, so a mutating call naming an unknown
GraphID can fail instead of silently creating the graph. -/
theorem c3_counterexample :
    (Graph_manager.new.delete_row "G" "k").2 = some UrsaError.keyError ∧
    (Graph_manager.new.delete_row "G" "k").1.graph_dict "G" = none :=
  ⟨rfl, rfl⟩

/-- C3 amended: auto-vivification holds for insert — its graph_id and every
graph named in foreign_keys are created and the call does not fail — and for
the other_graph_id of add_foreign_keys; delete_row, add_local_keys and
add_foreign_keys on its primary graph_id instead fail with KeyError on an
unknown name and leave the registry unchanged. -/
theorem c3_auto_vivification_amended :
    (∀ (m : Graph_manager) (gid : GraphID) (key : Key) (node : Row) (lk : Finset Key)
      (fks : List (GraphID × Finset Key)), gid ≠ "" → (∀ p ∈ fks, p.1 ≠ "") →
      (m.insert gid key node lk (.dict fks)).2 = none ∧
      ((m.insert gid key node lk (.dict fks)).1.graph_dict gid).isSome ∧
      ∀ p ∈ fks, ((m.insert gid key node lk (.dict fks)).1.graph_dict p.1).isSome) ∧
    (∀ (m : Graph_manager) (gid : GraphID) (key : Key) (other : GraphID) (ks : List Key)
      (gr : Graph), m.graph_dict gid = some gr → other ≠ "" →
      (m.add_foreign_keys gid key other ks).2 = none ∧
      ((m.add_foreign_keys gid key other ks).1.graph_dict other).isSome) ∧
    (∀ (m : Graph_manager) (gid : GraphID) (key : Key) (other : GraphID) (ks : List Key),
      m.graph_dict gid = none →
      (m.add_foreign_keys gid key other ks).2 = some UrsaError.keyError ∧
      (m.add_foreign_keys gid key other ks).1.graph_dict = m.graph_dict) ∧
    (∀ (m : Graph_manager) (gid : GraphID) (key : Key), m.graph_dict gid = none →
      (m.delete_row gid key).2 = some UrsaError.keyError ∧
      (m.delete_row gid key).1.graph_dict = m.graph_dict) ∧
    (∀ (m : Graph_manager) (gid : GraphID) (key : Key) (ks : List Key),
      m.graph_dict gid = none →
      (m.add_local_keys gid key ks).2 = some UrsaError.keyError ∧
      (m.add_local_keys gid key ks).1.graph_dict = m.graph_dict) := by
  refine ⟨?_, ?_, ?_, ?_, ?_⟩
  · intro m gid key node lk fks hgid hf
    exact ⟨insert_snd m gid key node lk fks hgid hf,
           insert_creates m gid key node lk fks hgid,
           fun p hp => insert_creates_foreign m gid key node lk fks hgid hf p hp⟩
  · intro m gid key other ks gr hgr hother
    exact ⟨add_foreign_keys_snd m gid key other ks gr hgr hother,
           add_foreign_keys_isSome m gid key other ks gr hgr hother other (Or.inr rfl)⟩
  · intro m gid key other ks h
    rw [add_foreign_keys_eq_none m gid key other ks h]
    exact ⟨rfl, rfl⟩
  · intro m gid key h
    rw [delete_row_eq_none m gid key h]
    exact ⟨rfl, rfl⟩
  · intro m gid key ks h
    rw [add_local_keys_eq_none m gid key ks h]
    exact ⟨rfl, rfl⟩

/-- C3 amended witness at concrete calls. -/
theorem c3_auto_vivification_amended_witness :
    ((M1.insert "K" "k" "v" ∅ (.dict [("H", {"FK"})])).2 = none ∧
     ((M1.insert "K" "k" "v" ∅ (.dict [("H", {"FK"})])).1.graph_dict "K").isSome ∧
     ((M1.insert "K" "k" "v" ∅ (.dict [("H", {"FK"})])).1.graph_dict "H").isSome) ∧
    ((M1.add_foreign_keys "G" "k" "H" ["fk"]).2 = none ∧
     ((M1.add_foreign_keys "G" "k" "H" ["fk"]).1.graph_dict "H").isSome) ∧
    ((Graph_manager.new.add_foreign_keys "G" "k" "H" ["fk"]).2 = some UrsaError.keyError ∧
     (Graph_manager.new.add_foreign_keys "G" "k" "H" ["fk"]).1.graph_dict =
       Graph_manager.new.graph_dict) ∧
    ((Graph_manager.new.delete_row "G" "k").2 = some UrsaError.keyError ∧
     (Graph_manager.new.delete_row "G" "k").1.graph_dict = Graph_manager.new.graph_dict) ∧
    ((Graph_manager.new.add_local_keys "G" "k" ["a"]).2 = some UrsaError.keyError ∧
     (Graph_manager.new.add_local_keys "G" "k" ["a"]).1.graph_dict =
       Graph_manager.new.graph_dict) := by
  have h1 := c3_auto_vivification_amended.1 M1 "K" "k" "v" ∅ [("H", {"FK"})]
    (by decide) (by intro p hp; simp at hp; rw [hp]; decide)
  exact ⟨⟨h1.1, h1.2.1, h1.2.2 ("H", {"FK"}) (by simp)⟩,
    c3_auto_vivification_amended.2.1 M1 "G" "k" "H" ["fk"] (Graph.empty 1) (by rfl) (by decide),
    c3_auto_vivification_amended.2.2.1 Graph_manager.new "G" "k" "H" ["fk"] rfl,
    c3_auto_vivification_amended.2.2.2.1 Graph_manager.new "G" "k" rfl,
    c3_auto_vivification_amended.2.2.2.2 Graph_manager.new "G" "k" ["a"] rfl⟩

/-- C9: repeating an identical add_local_keys or add_foreign_keys call leaves
every local and foreign edge set exactly as after the single call. -/
theorem c9_idempotence :
    (∀ (m : Graph_manager) (gid : GraphID) (key : Key) (ks : List Key) (x : GraphID)
      (k : Key) (g2 : GraphID), (m.graph_dict gid).isSome →
      ((m.add_local_keys gid key ks).1.add_local_keys gid key ks).1.LocalEdgeSet x k =
        (m.add_local_keys gid key ks).1.LocalEdgeSet x k ∧
      ((m.add_local_keys gid key ks).1.add_local_keys gid key ks).1.ForeignEdgeSet x k g2 =
        (m.add_local_keys gid key ks).1.ForeignEdgeSet x k g2) ∧
    (∀ (m : Graph_manager) (gid : GraphID) (key : Key) (other : GraphID) (ks : List Key)
      (x : GraphID) (k : Key) (g2 : GraphID), (m.graph_dict gid).isSome → other ≠ "" →
      ((m.add_foreign_keys gid key other ks).1.add_foreign_keys gid key other
          ks).1.LocalEdgeSet x k =
        (m.add_foreign_keys gid key other ks).1.LocalEdgeSet x k ∧
      ((m.add_foreign_keys gid key other ks).1.add_foreign_keys gid key other
          ks).1.ForeignEdgeSet x k g2 =
        (m.add_foreign_keys gid key other ks).1.ForeignEdgeSet x k g2) := by
  constructor
  · intro m gid key ks x k g2 hpres
    obtain ⟨gr, hgr⟩ := Option.isSome_iff_exists.mp hpres
    have hpres1 : ((m.add_local_keys gid key ks).1.graph_dict gid).isSome :=
      add_local_keys_isSome m gid key ks gr hgr gid (by simp [hgr])
    obtain ⟨gr1, hgr1⟩ := Option.isSome_iff_exists.mp hpres1
    constructor
    · rw [add_local_keys_LES _ gid key ks gr1 hgr1 x k,
          add_local_keys_LES m gid key ks gr hgr x k]
      ext a
      simp only [Finset.mem_union]
      tauto
    · rw [add_local_keys_FES _ gid key ks gr1 hgr1 x k g2]
  · intro m gid key other ks x k g2 hpres hother
    obtain ⟨gr, hgr⟩ := Option.isSome_iff_exists.mp hpres
    have hpres1 : ((m.add_foreign_keys gid key other ks).1.graph_dict gid).isSome :=
      add_foreign_keys_isSome m gid key other ks gr hgr hother gid (Or.inl (by simp [hgr]))
    obtain ⟨gr1, hgr1⟩ := Option.isSome_iff_exists.mp hpres1
    constructor
    · rw [add_foreign_keys_LES _ gid key other ks gr1 hgr1 hother x k]
    · rw [add_foreign_keys_FES _ gid key other ks gr1 hgr1 hother x k g2,
          add_foreign_keys_FES m gid key other ks gr hgr hother x k g2]
      ext a
      simp only [Finset.mem_union]
      tauto

/-- C9 witness at concrete repeated calls. -/
theorem c9_idempotence_witness :
    (((M1.add_local_keys "G" "K" ["A"]).1.add_local_keys "G" "K" ["A"]).1.LocalEdgeSet
        "G" "A" =
      (M1.add_local_keys "G" "K" ["A"]).1.LocalEdgeSet "G" "A") ∧
    (((M1.add_foreign_keys "G" "K" "H" ["FK"]).1.add_foreign_keys "G" "K" "H"
        ["FK"]).1.ForeignEdgeSet "H" "FK" "G" =
      (M1.add_foreign_keys "G" "K" "H" ["FK"]).1.ForeignEdgeSet "H" "FK" "G") :=
  ⟨(c9_idempotence.1 M1 "G" "K" ["A"] "G" "A" "H" (by rfl)).1,
   (c9_idempotence.2 M1 "G" "K" "H" ["FK"] "H" "FK" "G" (by rfl) (by decide)).2⟩

end Ursa
